import Mathlib

/-!
# SmartDocs scan/classification engine — a shallow embedding

This file embeds the scanning and classification core of the SmartDocs
documentation generator (`packages/smartdocs/src/scan/react-fixed.ts`,
`packages/smartdocs/src/scan/usage-analysis.ts`) and proves properties of
the embedded functions.

Conventions of the embedding:
* JavaScript strings are Lean `String`s; scanning works on `List Char`.
* `fs`/`globby`/parser results (I/O and third-party ASTs) enter as explicit
  inputs: a `SourceFile` carries the file's text together with the symbol
  names its docgen parse yields and the variable declarations its syntax
  tree contains; `ClassifyEnv` carries the file-read function and the
  route-reference search result.
* The JavaScript regexes used by the scanner are fixed literals; each one is
  translated into a dedicated recursive matcher with JS `matchAll`
  semantics (leftmost match, greedy quantifiers, resume at match end).
-/

set_option maxRecDepth 8192

namespace SmartDocs

/-- The seven values of `ComponentDoc.type` in `react-fixed.ts`. -/
inductive Category : Type where
  | component : Category
  | hook : Category
  | page : Category
  | api : Category
  | service : Category
  | util : Category
  | mdx : Category
deriving DecidableEq, Repr

/-- The return type of `analyzeCodeContent`: the TypeScript union
`'component' | 'hook' | 'page'`. -/
inductive CoreType : Type where
  | component : CoreType
  | hook : CoreType
  | page : CoreType
deriving DecidableEq, Repr

/-- The TypeScript subtyping coercion from `'component'|'hook'|'page'` into
`ComponentDoc['type']`. -/
def CoreType.toCategory : CoreType → Category
  | .component => .component
  | .hook => .hook
  | .page => .page

/-! ## String primitives (JS semantics, ASCII inputs) -/

/-- JS word character (`\w` of the scanner regexes): `[A-Za-z0-9_]`. -/
def isWordChar (c : Char) : Bool :=
  (('a' ≤ c && c ≤ 'z') || ('A' ≤ c && c ≤ 'Z') || ('0' ≤ c && c ≤ '9') || c = '_')

/-- ASCII uppercase letter, the `[A-Z]` class. -/
def isUpperChar (c : Char) : Bool := 'A' ≤ c && c ≤ 'Z'

/-- ASCII letter, the `[a-zA-Z]` class. -/
def isLetterChar (c : Char) : Bool := ('a' ≤ c && c ≤ 'z') || ('A' ≤ c && c ≤ 'Z')

/-- ASCII letter or digit, the `[a-zA-Z0-9]` class. -/
def isAlnumChar (c : Char) : Bool := isLetterChar c || ('0' ≤ c && c ≤ '9')

/-- The whitespace characters matched by JS `\s` (ASCII part, which is all
the scanned sources contain). -/
def isSpaceChar (c : Char) : Bool :=
  c = ' ' || c = '\t' || c = '\n' || c = '\r' || c = '\x0b' || c = '\x0c'

/-- `haystack.includes(needle)` on character lists. -/
def containsSub (hay needle : List Char) : Bool :=
  if needle.isPrefixOf hay then true
  else
    match hay with
    | [] => false
    | _ :: t => containsSub t needle

/-- `s.includes(sub)`. -/
def strIncludes (s sub : String) : Bool := containsSub s.data sub.data

/-- `s.startsWith(p)`. -/
def strStartsWith (s p : String) : Bool := p.data.isPrefixOf s.data

/-- `s.endsWith(p)`. -/
def strEndsWith (s p : String) : Bool := p.data.isSuffixOf s.data

/-- `s.toLowerCase()` (ASCII). -/
def toLowerStr (s : String) : String := String.mk (s.data.map Char.toLower)

/-- `filePath.replace(/\\/g, '/')`. -/
def normalizeSlashes (s : String) : String :=
  String.mk (s.data.map fun c => if c = '\\' then '/' else c)

/-- `s.trim()` restricted to the whitespace that occurs in the inputs. -/
def trimJs (s : String) : String :=
  String.mk (((s.data.dropWhile isSpaceChar).reverse.dropWhile isSpaceChar).reverse)

/-- `content.slice(a, b)` for `a ≤ b` (the callers clamp the bounds). -/
def sliceChars (l : List Char) (a b : Nat) : List Char := (l.drop a).take (b - a)

/-- `content.split('\n')`, keeping empty segments. -/
def splitLines (s : String) : List String :=
  (s.data.foldr
    (fun c (acc : List (List Char)) =>
      match acc with
      | [] => if c = '\n' then [[], []] else [[c]]
      | x :: xs => if c = '\n' then [] :: (x :: xs) else (c :: x) :: xs)
    [[]]).map String.mk

/-! ## Overrides (`ComponentOverride`, `loadOverrides`, `findOverride`) -/

/-- One entry of the override sidecar file (`ComponentOverride`). -/
structure ComponentOverride : Type where
  filePath : String
  componentName : String
  originalType : CoreType
  overrideType : CoreType
  timestamp : String
  reason : Option String
deriving DecidableEq, Repr

/-- The sidecar document shape (`OverridesConfig`). -/
structure OverridesConfig : Type where
  version : String
  overrides : List ComponentOverride
deriving DecidableEq, Repr

/-- The config `loadOverrides` falls back to when the sidecar file is absent
or unparseable: `{version: '1.0.0', overrides: []}`. -/
def emptyOverridesConfig : OverridesConfig := ⟨"1.0.0", []⟩

/-- `loadOverrides`: read `.smartdocs-overrides.json` and `JSON.parse` it,
falling back to the empty config when either step throws.  The file read is
`readResult` (`none` = read error) and the JSON parse is the function
`parse` (`none` = parse error). -/
def loadOverrides (readResult : Option String)
    (parse : String → Option OverridesConfig) : OverridesConfig :=
  match readResult with
  | none => emptyOverridesConfig
  | some content =>
    match parse content with
    | none => emptyOverridesConfig
    | some cfg => cfg

/-- `findOverride`: first entry matching both the file path and the
component name. -/
def findOverride (overrides : List ComponentOverride)
    (filePath componentName : String) : Option ComponentOverride :=
  overrides.find? fun o =>
    o.filePath = filePath && o.componentName = componentName

/-! ## The classifier (`analyzeCodeContent` and its helpers) -/

/-- `isHook` of `react-fixed.ts`: `name.startsWith('use')`. -/
def isHookName (name : String) : Bool := strStartsWith name "use"

/-- The pattern list of `hasPageSpecificPatterns`, in source order
(including the duplicated `useSearchParams`). -/
def pagePatterns : List String :=
  ["getStaticProps", "getServerSideProps", "getStaticPaths",
   "generateStaticParams", "generateMetadata",
   "useParams", "useSearchParams", "useNavigate", "useLocation",
   "useRouteLoaderData",
   "useRouter", "usePathname", "useSearchParams",
   "Head from", "metadata =", "export const metadata",
   "params:", "searchParams:", "query:", "slug:"]

/-- `hasPageSpecificPatterns`. -/
def hasPageSpecificPatterns (fileContent : String) : Bool :=
  pagePatterns.any fun p => strIncludes fileContent p

/-- The `isObviouslyNotPage` disjunction of `analyzeCodeContent`,
transcribed clause by clause (note `router`/`routes`/`routing`/`app` are
exact-equality tests while everything else is a substring test). -/
def isObviouslyNotPage (nameLower : String) : Bool :=
  strIncludes nameLower "provider" || strIncludes nameLower "context" ||
  nameLower = "router" || nameLower = "routes" || nameLower = "routing" ||
  strIncludes nameLower "navigation" || strIncludes nameLower "nav" ||
  strIncludes nameLower "header" || strIncludes nameLower "footer" ||
  strIncludes nameLower "sidebar" || strIncludes nameLower "menu" ||
  strIncludes nameLower "notification" || strIncludes nameLower "toast" ||
  strIncludes nameLower "layout" || strIncludes nameLower "wrapper" ||
  strIncludes nameLower "container" || nameLower = "app" ||
  strIncludes nameLower "button" || strIncludes nameLower "input" ||
  strIncludes nameLower "modal" || strIncludes nameLower "dialog" ||
  strIncludes nameLower "popup" || strIncludes nameLower "tooltip" ||
  strIncludes nameLower "dropdown" || strIncludes nameLower "select" ||
  strIncludes nameLower "checkbox" || strIncludes nameLower "radio" ||
  strIncludes nameLower "slider" || strIncludes nameLower "toggle" ||
  strIncludes nameLower "loading" || strIncludes nameLower "spinner" ||
  strIncludes nameLower "skeleton" || strIncludes nameLower "progress" ||
  strIncludes nameLower "badge" || strIncludes nameLower "chip" ||
  strIncludes nameLower "tag" || strIncludes nameLower "label" ||
  strIncludes nameLower "table" || strIncludes nameLower "list" ||
  strIncludes nameLower "card" || strIncludes nameLower "panel" ||
  strIncludes nameLower "accordion" || strIncludes nameLower "tab" ||
  strIncludes nameLower "carousel" || strIncludes nameLower "gallery" ||
  strIncludes nameLower "error" || strIncludes nameLower "fallback" ||
  strIncludes nameLower "guard" || strIncludes nameLower "boundary" ||
  strIncludes nameLower "portal" || strIncludes nameLower "teleport"

/-- Does the suffix after a `.` equal one of the extensions of the regex
`\.(tsx?|jsx?)$`? -/
def extTsJs (suffix : List Char) : Bool :=
  suffix = ['t', 's'] || suffix = ['t', 's', 'x'] ||
  suffix = ['j', 's'] || suffix = ['j', 's', 'x']

/-- Is there a `.` in `l` whose remainder is a `\.(tsx?|jsx?)$` extension? -/
def hasDotTsJsExt : List Char → Bool
  | [] => false
  | c :: rest => (c = '.' && extTsJs rest) || hasDotTsJsExt rest

/-- `normalizedPath.match(/\/pages\/.*\.(tsx?|jsx?)$/)` viewed as a Bool:
some occurrence of `/pages/` followed (anywhere later) by a final
`.ts/.tsx/.js/.jsx` extension. -/
def matchesPagesFileRegex : List Char → Bool
  | [] => false
  | l@(_ :: rest) =>
    (("/pages/".data.isPrefixOf l) && hasDotTsJsExt (l.drop 7)) ||
    matchesPagesFileRegex rest

/-- The environment `analyzeCodeContent` interacts with: the file system
read used when no code is passed in, and the outcome of the
`isReferencedInRoutes` cross-file search (a self-contained I/O scan whose
result we take as an oracle). -/
structure ClassifyEnv : Type where
  readFile : String → Option String
  referencedInRoutes : String → String → Bool

/-- `analyzeCodeContent(filePath, name, code?, projectRoot?)`.
`overridesConfig = some cfg` models a call with a `projectRoot` whose
sidecar loads to `cfg`; `none` models a call without a project root. -/
def analyzeCodeContent (env : ClassifyEnv) (overridesConfig : Option OverridesConfig)
    (filePath name : String) (code : Option String) : CoreType :=
  -- Check for user overrides first
  match overridesConfig.bind fun cfg => findOverride cfg.overrides filePath name with
  | some o => o.overrideType
  | none =>
    -- 1. Hook detection - names starting with 'use'
    if isHookName name then .hook
    else
      -- 2. Read file content if not provided (an empty `code` string is
      -- falsy in JS and also triggers the read)
      match
        (match code with
         | some c => if c = "" then env.readFile filePath else some c
         | none => env.readFile filePath) with
      | none => .component          -- default fallback on read error
      | some fileContent =>
        -- 3. Additional hook detection (dead after rule 1, kept verbatim)
        if strStartsWith name "use" &&
            (strIncludes fileContent "export const" ||
             strIncludes fileContent "export default") &&
            (strIncludes fileContent "useState" ||
             strIncludes fileContent "useEffect" ||
             strIncludes fileContent "useContext" ||
             strIncludes fileContent "useRef" ||
             strIncludes fileContent "useMemo" ||
             strIncludes fileContent "useCallback") then .hook
        else
          let nameLower := toLowerStr name
          if isObviouslyNotPage nameLower then .component
          else
            let normalizedPath := normalizeSlashes filePath
            -- Next.js App Router (v13+)
            if strIncludes normalizedPath "/app/" &&
                (strEndsWith normalizedPath "/page.tsx" ||
                 strEndsWith normalizedPath "/page.ts" ||
                 strEndsWith normalizedPath "/page.jsx" ||
                 strEndsWith normalizedPath "/page.js") then .page
            else
              -- Next.js Pages Router
              let isSpecialNextFile :=
                strEndsWith normalizedPath "/_app.tsx" ||
                strEndsWith normalizedPath "/_app.ts" ||
                strEndsWith normalizedPath "/_app.jsx" ||
                strEndsWith normalizedPath "/_app.js" ||
                strEndsWith normalizedPath "/_document.tsx" ||
                strEndsWith normalizedPath "/_document.ts" ||
                strEndsWith normalizedPath "/_document.jsx" ||
                strEndsWith normalizedPath "/_document.js" ||
                strIncludes normalizedPath "/api/"
              if strIncludes normalizedPath "/pages/" && !isSpecialNextFile &&
                  (matchesPagesFileRegex normalizedPath.data &&
                   !strIncludes normalizedPath "/_" &&
                   (strIncludes fileContent "export default" ||
                    strIncludes fileContent "export \x7b default \x7d")) then .page
              else if strIncludes normalizedPath "[" && strIncludes normalizedPath "]" &&
                  (strIncludes normalizedPath "/pages/" ||
                   strIncludes normalizedPath "/app/") &&
                  (strIncludes fileContent "export default" ||
                   strIncludes fileContent "getStaticProps" ||
                   strIncludes fileContent "getServerSideProps" ||
                   strIncludes fileContent "generateStaticParams") then .page
              else if (strIncludes normalizedPath "/routes/" ||
                   strIncludes normalizedPath "/views/") &&
                  (strEndsWith normalizedPath "page.tsx" ||
                   strEndsWith normalizedPath "page.ts" ||
                   strEndsWith normalizedPath "page.jsx" ||
                   strEndsWith normalizedPath "page.js" ||
                   strEndsWith normalizedPath ".page.tsx" ||
                   strEndsWith normalizedPath ".page.ts" ||
                   strEndsWith normalizedPath ".page.jsx" ||
                   strEndsWith normalizedPath ".page.js" ||
                   strEndsWith normalizedPath "route.tsx" ||
                   strEndsWith normalizedPath "route.ts" ||
                   strEndsWith normalizedPath "index.tsx" ||
                   strEndsWith normalizedPath "index.ts") then .page
              else if hasPageSpecificPatterns fileContent &&
                  ((strIncludes fileContent "export default" ||
                    strIncludes fileContent "export \x7b default \x7d") &&
                   !isObviouslyNotPage nameLower) then .page
              else if (strEndsWith nameLower "page" || strEndsWith nameLower "view" ||
                   strEndsWith nameLower "screen") &&
                  (strIncludes fileContent "export default" ||
                   strIncludes fileContent "export const" ||
                   strIncludes fileContent "export function") &&
                  (!strIncludes nameLower "component" && !strIncludes nameLower "widget" &&
                   !strIncludes nameLower "element" && !strIncludes nameLower "item") then .page
              else if env.referencedInRoutes filePath name then .page
              else if strEndsWith nameLower "page" &&
                  strIncludes fileContent "export default" then .page
              else .component

/-! ## Regex scanners

Each JS regex literal used by the scanner becomes one matcher.  A matcher
receives the character before the current position (for `\b`) and the
current suffix; it returns the number of characters the whole match
consumes together with the capture.  `runScan` is `matchAll`: leftmost
match, then resume scanning at the end of the match. -/

/-- `\b` before a word character: position start or preceding non-word. -/
def wordBoundaryOk : Option Char → Bool
  | none => true
  | some c => !isWordChar c

/-- The `matchAll` driver (fuel = remaining length + 1). -/
def scanAllAux (matchAt : Option Char → List Char → Option (Nat × String)) :
    Nat → Option Char → Nat → List Char → List (Nat × String)
  | 0, _, _, _ => []
  | _ + 1, _, _, [] => []
  | fuel + 1, prev, pos, c :: rest =>
    match matchAt prev (c :: rest) with
    | some (len, cap) =>
      if len ≤ 1 then (pos, cap) :: scanAllAux matchAt fuel (some c) (pos + 1) rest
      else
        (pos, cap) ::
          scanAllAux matchAt fuel (some ((c :: rest).getD (len - 1) c)) (pos + len)
            ((c :: rest).drop len)
    | none => scanAllAux matchAt fuel (some c) (pos + 1) rest

/-- All matches of a pattern in a text, as (start index, capture) pairs. -/
def runScan (matchAt : Option Char → List Char → Option (Nat × String))
    (l : List Char) : List (Nat × String) :=
  scanAllAux matchAt (l.length + 1) none 0 l

/-- Parse a `use[A-Z]cls*` identifier (`cls` = tail character class);
returns (consumed, capture, rest). -/
def matchUseIdent (cls : Char → Bool) (l : List Char) :
    Option (Nat × String × List Char) :=
  match l with
  | 'u' :: 's' :: 'e' :: c :: rest =>
    if isUpperChar c then
      let w := rest.takeWhile cls
      some (4 + w.length, String.mk ('u' :: 's' :: 'e' :: c :: w), rest.dropWhile cls)
    else none
  | _ => none

/-- Matcher for `\b(use[A-Z]cls*)\s*\(`; with `cls = [a-zA-Z]` this is the
hook-usage regex of `findAllHookNames`, with `cls = [a-zA-Z0-9]` the
`directHookPattern` of `usage-analysis.ts`. -/
def matchUseCallAt (cls : Char → Bool) (prev : Option Char) (l : List Char) :
    Option (Nat × String) :=
  if wordBoundaryOk prev then
    match matchUseIdent cls l with
    | some (n, cap, r) =>
      let sp := r.takeWhile isSpaceChar
      if (r.dropWhile isSpaceChar).head? = some '(' then some (n + sp.length + 1, cap)
      else none
    | none => none
  else none

/-- `(?:function|const)` (alternation in source order). -/
def matchFnConst (l : List Char) : Option (Nat × List Char) :=
  if "function".data.isPrefixOf l then some (8, l.drop 8)
  else if "const".data.isPrefixOf l then some (5, l.drop 5)
  else none

/-- Matcher for `(?:function|const)\s+(use[A-Z][a-zA-Z]*)` — the
hook-declaration regex of `findAllHookNames` (no `\b`, like the source). -/
def matchHookDeclAt (_ : Option Char) (l : List Char) : Option (Nat × String) :=
  match matchFnConst l with
  | some (k, r) =>
    let sp := r.takeWhile isSpaceChar
    if sp.length = 0 then none
    else
      match matchUseIdent isLetterChar (r.dropWhile isSpaceChar) with
      | some (n, cap, _) => some (k + sp.length + n, cap)
      | none => none
  | none => none

/-- Matcher for `export\s+(?:function|const)\s+(use[A-Z][a-zA-Z]*)` — the
hook-export regex of `findAllHookNames`. -/
def matchHookExportAt (_ : Option Char) (l : List Char) : Option (Nat × String) :=
  if "export".data.isPrefixOf l then
    let r1 := l.drop 6
    let sp1 := r1.takeWhile isSpaceChar
    if sp1.length = 0 then none
    else
      match matchHookDeclAt none (r1.dropWhile isSpaceChar) with
      | some (m, cap) => some (6 + sp1.length + m, cap)
      | none => none
  else none

/-! ## Hook registry (`findAllHookNames`) and usage scan (`scanAllHookUsages`) -/

/-- `Object.values(BUILT_IN_HOOKS).flat()` in declaration order. -/
def ALL_BUILT_IN_HOOKS : List String :=
  ["useState", "useReducer",
   "useEffect", "useLayoutEffect",
   "useMemo", "useCallback",
   "useContext",
   "useRef", "useImperativeHandle",
   "useId", "useDebugValue", "useDeferredValue", "useTransition",
   "useSyncExternalStore", "useInsertionEffect"]

/-- `isTs` of `react-fixed.ts`: `/\.(ts|tsx)$/`. -/
def isTsPath (f : String) : Bool := strEndsWith f ".ts" || strEndsWith f ".tsx"

/-- `isJs`: `/\.(js|jsx)$/`. -/
def isJsPath (f : String) : Bool := strEndsWith f ".js" || strEndsWith f ".jsx"

/-- `isMdx`: `/\.(md|mdx)$/`. -/
def isMdxPath (f : String) : Bool := strEndsWith f ".md" || strEndsWith f ".mdx"

/-- JS `Set.add`: insertion-ordered, ignores duplicates. -/
def insertUniq (l : List String) (x : String) : List String :=
  if x ∈ l then l else l ++ [x]

/-- The names one file contributes to the registry: hook-call captures,
then hook-export captures, then hook-declaration captures, in text order
(the order the three regex loops run). -/
def findAllHookNamesInContent (content : List Char) : List String :=
  (runScan (matchUseCallAt isLetterChar) content).map (·.2) ++
  (runScan matchHookExportAt content).map (·.2) ++
  (runScan matchHookDeclAt content).map (·.2)

/-- One variable declarator as the babel AST presents it to
`scanAllHookUsages`: the initializer's callee identifier (when the
initializer is a call with a plain-identifier callee), the 1-based line of
the declarator (0 when `loc` is absent), and the destructured names of an
array/object id pattern. -/
structure VarDeclInfo : Type where
  callee : Option String
  line : Nat
  destructuring : Option (List String)
deriving DecidableEq, Repr

/-- One enumerated source file, carrying the parser outputs the scanner
consumes: the raw text, the display names its TypeScript docgen parse
yields (empty when every parse strategy fails), the components its
react-docgen JS parse yields (`none` display names fall back to the
file-name inference) with a flag for parse success, and the variable
declarations of its babel syntax tree. -/
structure SourceFile : Type where
  path : String
  content : String
  tsParsedSymbols : List String
  jsParsedComponents : List (Option String)
  jsParseOk : Bool
  varDecls : List VarDeclInfo
deriving DecidableEq, Repr

/-- `lines[lineNumber - 1] || ''`. -/
def lineContentAt (content : String) (lineNumber : Nat) : String :=
  if lineNumber = 0 then "" else (splitLines content).getD (lineNumber - 1) ""

/-- `\w+` (at least one word character, greedy). -/
def matchWordPlus (l : List Char) : Option String :=
  let w := l.takeWhile isWordChar
  if w.length = 0 then none else some (String.mk w)

/-- One position of the `extractFunctionContext` regex
`(?:function|const)\s+(\w+)|export\s+(?:default\s+)?(?:function\s+(\w+)|const\s+(\w+))`;
returns the captured function name. -/
def funcNameAt (l : List Char) : Option String :=
  (match matchFnConst l with
   | some (_, r) =>
     let sp := r.takeWhile isSpaceChar
     if sp.length = 0 then none else matchWordPlus (r.dropWhile isSpaceChar)
   | none => none)
  <|>
  (if "export".data.isPrefixOf l then
     let r1 := l.drop 6
     let sp1 := r1.takeWhile isSpaceChar
     if sp1.length = 0 then none
     else
       let r2 := r1.dropWhile isSpaceChar
       let r3 :=
         if "default".data.isPrefixOf r2 then
           let rr := r2.drop 7
           let sp := rr.takeWhile isSpaceChar
           if sp.length = 0 then r2 else rr.dropWhile isSpaceChar
         else r2
       match matchFnConst r3 with
       | some (_, r4) =>
         let sp2 := r4.takeWhile isSpaceChar
         if sp2.length = 0 then none else matchWordPlus (r4.dropWhile isSpaceChar)
       | none => none
   else none)

/-- Leftmost match of the `extractFunctionContext` regex in one line. -/
def findFuncName : List Char → Option String
  | [] => none
  | l@(_ :: t) => funcNameAt l <|> findFuncName t

/-- The backward scan of `extractFunctionContext`: inspect line `i`, then
`i - 1`, …, stopping after `fuel` further steps or at line 0. -/
def searchBackAux (lines : List String) : Nat → Nat → String
  | i, fuel =>
    match findFuncName (lines.getD i "").data with
    | some n => n
    | none =>
      match fuel, i with
      | 0, _ => "global"
      | _, 0 => "global"
      | fuel' + 1, i' + 1 => searchBackAux lines i' fuel'

/-- `extractFunctionContext(content, lineNumber)`: nearest preceding
function/const declaration within 20 lines, else `'global'`. -/
def extractFunctionContext (content : String) (lineNumber : Nat) : String :=
  if lineNumber = 0 then "global"
  else searchBackAux (splitLines content) (lineNumber - 1) 20

/-- The call-site record `scanAllHookUsages` pushes (the argument-rendering
fields, which no claim inspects, are left to the AST abstraction). -/
structure CallSite : Type where
  file : String
  line : Nat
  code : String
  context : String
  destructuring : Option (List String)
deriving DecidableEq, Repr

/-- `findAllHookNames(files)`: built-in hooks first, then for every
`.ts/.tsx/.js/.jsx` file the captures of the three regex families, all
added with JS `Set` (insertion-ordered, deduplicating) semantics. -/
def findAllHookNames (files : List SourceFile) : List String :=
  files.foldl
    (fun acc f =>
      if isTsPath f.path || isJsPath f.path then
        (findAllHookNamesInContent f.content.data).foldl insertUniq acc
      else acc)
    (ALL_BUILT_IN_HOOKS.foldl insertUniq [])

/-- The record `scanAllHookUsages` pushes for one matching declarator. -/
def mkHookUsageRecord (f : SourceFile) (d : VarDeclInfo) : CallSite :=
  { file := f.path, line := d.line,
    code := trimJs (lineContentAt f.content d.line),
    context := extractFunctionContext f.content d.line,
    destructuring := d.destructuring }

/-- `scanAllHookUsages(files)` flattened to (hook name, call-site) pairs in
push order: a record per variable declaration whose initializer calls an
identifier that `startsWith('use')`, in `.ts/.tsx/.js/.jsx` files only. -/
def scanAllHookUsages (files : List SourceFile) : List (String × CallSite) :=
  files.flatMap fun f =>
    if isTsPath f.path || isJsPath f.path then
      f.varDecls.filterMap fun d =>
        match d.callee with
        | some hookName =>
          if strStartsWith hookName "use" then some (hookName, mkHookUsageRecord f d)
          else none
        | none => none
    else []

/-- `hookUsageMap[hookName] || []`. -/
def hookUsagesFor (files : List SourceFile) (hookName : String) : List CallSite :=
  (scanAllHookUsages files).filterMap fun p =>
    if p.1 = hookName then some p.2 else none

/-! ## Usage-example extraction tails and `scanComponents` -/

/-- `[...new Set(examples)]`: deduplicate keeping first occurrences. -/
def dedupKeepFirst (l : List String) : List String := l.foldl insertUniq []

/-- The closing lines of `extractRealUsageExamples` / `extractHookUsageExamples`:
`const uniqueExamples = [...new Set(examples)]; return uniqueExamples.slice(0, 3)`. -/
def dedupAndCapExamples (examples : List String) : List String :=
  (dedupKeepFirst examples).take 3

/-- The project-wide walks `scanComponents` performs that live behind
`globby` + the babel parser: for a display name, the raw example spans the
two example extractors collect before deduplication and capping. -/
structure ScanEnv : Type where
  componentExampleOccurrences : String → List String
  hookExampleOccurrences : String → List String

/-- `extractRealUsageExamples(componentName)` with its collected raw spans
supplied by the environment. -/
def extractRealUsageExamples (env : ScanEnv) (componentName : String) : List String :=
  dedupAndCapExamples (env.componentExampleOccurrences componentName)

/-- `extractHookUsageExamples(hookName)` with its collected raw spans
supplied by the environment. -/
def extractHookUsageExamples (env : ScanEnv) (hookName : String) : List String :=
  dedupAndCapExamples (env.hookExampleOccurrences hookName)

/-- `(?:function|const)\s+NAME\b` at the current position. -/
def fnConstNameDef (hookName : List Char) (l : List Char) : Bool :=
  match matchFnConst l with
  | some (_, r) =>
    let sp := r.takeWhile isSpaceChar
    if sp.length = 0 then false
    else
      let r2 := r.dropWhile isSpaceChar
      hookName.isPrefixOf r2 &&
        (match r2.drop hookName.length with
         | [] => true
         | c :: _ => !isWordChar c)
  | none => false

/-- `(?:export\s+)?(?:function|const)\s+NAME\b` at the current position. -/
def hookDefAtPos (hookName : List Char) (l : List Char) : Bool :=
  (if "export".data.isPrefixOf l then
     let r := l.drop 6
     let sp := r.takeWhile isSpaceChar
     decide (sp.length ≠ 0) && fnConstNameDef hookName (r.dropWhile isSpaceChar)
   else false) || fnConstNameDef hookName l

/-- `hookDefRegex.test(content)` for the interpolated definition regex of
`scanSpecificHook`. -/
def containsHookDefAux (hookName : List Char) : List Char → Bool
  | [] => false
  | l@(_ :: t) => hookDefAtPos hookName l || containsHookDefAux hookName t

/-- `path.basename` (POSIX, inputs without trailing separators). -/
def basenameOf (p : String) : String :=
  String.mk ((p.data.reverse.takeWhile (fun c => !(c = '/'))).reverse)

/-- `base.replace(/\.(jsx?|tsx?|mdx?)$/i, "")`. -/
def stripDocExt (base : String) : String :=
  let lower := toLowerStr base
  if strEndsWith lower ".jsx" || strEndsWith lower ".tsx" || strEndsWith lower ".mdx" then
    String.mk (base.data.take (base.data.length - 4))
  else if strEndsWith lower ".js" || strEndsWith lower ".ts" || strEndsWith lower ".md" then
    String.mk (base.data.take (base.data.length - 3))
  else base

/-- `base.charAt(0).toUpperCase() + base.slice(1)`. -/
def capitalizeFirst (s : String) : String :=
  match s.data with
  | [] => ""
  | c :: rest => String.mk (c.toUpper :: rest)

/-- `inferNameFromPath`. -/
def inferNameFromPath (p : String) : String :=
  capitalizeFirst (stripDocExt (basenameOf p))

/-- The record `scanComponents` pushes, restricted to the fields the
verified claims inspect (props/descriptions/signatures are parser renderings
no claim touches). -/
structure Doc : Type where
  displayName : String
  filePath : String
  type : Category
  realUsageExamples : List String
  hookUsages : List CallSite
deriving DecidableEq, Repr

/-- `scanSpecificHook(hookName, files, hookUsages)`. -/
def scanSpecificHook (env : ScanEnv) (files : List SourceFile) (hookName : String)
    (hookUsages : List CallSite) : Option Doc :=
  let isBuiltIn := hookName ∈ ALL_BUILT_IN_HOOKS
  if isBuiltIn && !hookUsages.isEmpty then
    -- built-in hook with usages: documentation from usage patterns
    some { displayName := hookName, filePath := "React Built-in", type := .hook,
           realUsageExamples := [], hookUsages := hookUsages }
  else
    -- custom hooks: first file whose text matches the definition regex
    match files.find? (fun f => (isTsPath f.path || isJsPath f.path) &&
        containsHookDefAux hookName.data f.content.data) with
    | some f =>
      some { displayName := hookName, filePath := f.path, type := .hook,
             realUsageExamples := extractHookUsageExamples env hookName,
             hookUsages := hookUsages }
    | none =>
      if !hookUsages.isEmpty then
        some { displayName := hookName, filePath := "Unknown", type := .hook,
               realUsageExamples := [], hookUsages := hookUsages }
      else none

/-- The `isConfigFile` filename test of the `.js` branch of `scanComponents`
(applied to the lowercased basename). -/
def isConfigFileName (filename : String) : Bool :=
  strIncludes filename ".config." || strIncludes filename ".conf." ||
  strStartsWith filename "config" || strIncludes filename "tailwind" ||
  strIncludes filename "postcss" || strIncludes filename "eslint" ||
  strIncludes filename "babel" || strIncludes filename "webpack" ||
  strIncludes filename "vite" || strIncludes filename "test"

/-- The quick content check of the `.js` branch: skip files that look like
no React component at all. -/
def looksNonComponentJs (code : String) : Bool :=
  !strIncludes code "React" && !strIncludes code "export" &&
  !strIncludes code "function" && !strIncludes code "const" &&
  !strIncludes code "class"

/-- The record both script branches of `scanComponents` push for one parsed
symbol: the classified type, plus real usage examples for components and
hooks (pages get none). -/
def mkScanDoc (env : ScanEnv) (name filePath : String) (docType : CoreType) : Doc :=
  { displayName := name, filePath := filePath, type := docType.toCategory,
    realUsageExamples :=
      match docType with
      | .component => extractRealUsageExamples env name
      | .hook => extractHookUsageExamples env name
      | .page => [],
    hookUsages := [] }

/-- The docs one enumerated file contributes in the first pass of
`scanComponents` (mdx branch, TypeScript branch, JavaScript branch). -/
def docsForFile (env : ScanEnv) (cenv : ClassifyEnv) (cfg : OverridesConfig)
    (f : SourceFile) : List Doc :=
  if isMdxPath f.path then
    [{ displayName := inferNameFromPath f.path, filePath := f.path, type := .mdx,
       realUsageExamples := [], hookUsages := [] }]
  else if isTsPath f.path then
    f.tsParsedSymbols.map fun name =>
      mkScanDoc env name f.path
        (analyzeCodeContent cenv (some cfg) f.path name (some f.content))
  else if isJsPath f.path then
    if isConfigFileName (toLowerStr (basenameOf f.path)) then []
    else if looksNonComponentJs f.content then []
    else if !f.jsParseOk then []
    else
      f.jsParsedComponents.map fun c? =>
        let name :=
          match c? with
          | some n => if n = "" then inferNameFromPath f.path else n
          | none => inferNameFromPath f.path
        mkScanDoc env name f.path
          (analyzeCodeContent cenv (some cfg) f.path name (some f.content))
  else []

/-- The enhancement branch of the second pass: mutate the already-found
hook doc in place (the mutated fields among the embedded ones: `hookUsages`). -/
def replaceFirstHookDoc (hookName : String) (hd : Doc) : List Doc → List Doc
  | [] => []
  | d :: ds =>
    if d.displayName == hookName && d.type == Category.hook then
      { d with hookUsages := hd.hookUsages } :: ds
    else d :: replaceFirstHookDoc hookName hd ds

/-- `scanComponents(patterns, projectRoot)` over an enumerated snapshot:
first pass per file, then the hook second pass over `findAllHookNames`. -/
def scanComponents (env : ScanEnv) (cenv : ClassifyEnv) (cfg : OverridesConfig)
    (files : List SourceFile) : List Doc :=
  let firstPass := files.flatMap (docsForFile env cenv cfg)
  (findAllHookNames files).foldl
    (fun docs hookName =>
      match scanSpecificHook env files hookName (hookUsagesFor files hookName) with
      | none => docs
      | some hd =>
        if docs.any (fun d => d.displayName == hookName && d.type == Category.hook) then
          replaceFirstHookDoc hookName hd docs
        else docs ++ [hd])
    firstPass

/-! ## Page-dependency analyzer (`usage-analysis.ts`) -/

/-- Greedy `(?:\.[A-Z][a-zA-Z0-9]*)*` tail of the `jsxPattern` capture;
returns (consumed, capture tail, rest). -/
def jsxDotTail : Nat → List Char → Nat × List Char × List Char
  | 0, l => (0, [], l)
  | fuel + 1, l =>
    match l with
    | '.' :: c :: rest =>
      if isUpperChar c then
        let w := rest.takeWhile isAlnumChar
        let (n, cap, r) := jsxDotTail fuel (rest.dropWhile isAlnumChar)
        (2 + w.length + n, '.' :: c :: (w ++ cap), r)
      else (0, [], l)
    | _ => (0, [], l)

/-- Matcher for `jsxPattern = /<([A-Z][a-zA-Z0-9]*(?:\.[A-Z][a-zA-Z0-9]*)*)/g`. -/
def matchJsxAt (_ : Option Char) (l : List Char) : Option (Nat × String) :=
  match l with
  | '<' :: c :: rest =>
    if isUpperChar c then
      let w := rest.takeWhile isAlnumChar
      let r := rest.dropWhile isAlnumChar
      let (n, capTail, _) := jsxDotTail r.length r
      some (2 + w.length + n, String.mk (c :: (w ++ capTail)))
    else none
  | _ => none

/-- `(use[A-Z][a-zA-Z0-9]*)\s*\(` at the current position. -/
def matchHookTail (l : List Char) : Option (Nat × String) :=
  match matchUseIdent isAlnumChar l with
  | some (n, cap, r) =>
    let sp := r.takeWhile isSpaceChar
    if (r.dropWhile isSpaceChar).head? = some '(' then some (n + sp.length + 1, cap)
    else none
  | none => none

/-- Split at the first `'='` (the furthest `[^=]*` can reach); returns the
number of characters before it and the rest after it. -/
def splitAtFirstEq : List Char → Option (Nat × List Char)
  | [] => none
  | '=' :: t => some (0, t)
  | _ :: t => (splitAtFirstEq t).map fun p => (p.1 + 1, p.2)

/-- Matcher for
`hookPattern = /(?:const|let|var)\s*(?:\[?[^=]*\]?\s*=\s*)?(use[A-Z][a-zA-Z0-9]*)\s*\(/g`.
The optional group is tried greedily: since `[^=]*` absorbs every character
up to the first `'='` (including any `[`/`]`/whitespace), the group matches
exactly when an `'='` exists and the hook call follows it after whitespace;
otherwise the pattern falls back to the group-less form. -/
def matchHookDeclPatternAt (_ : Option Char) (l : List Char) : Option (Nat × String) :=
  match
    (if "const".data.isPrefixOf l then some 5
     else if "let".data.isPrefixOf l then some 3
     else if "var".data.isPrefixOf l then some 3
     else none) with
  | none => none
  | some k =>
    let r1 := l.drop k
    let ws1 := r1.takeWhile isSpaceChar
    let r2 := r1.dropWhile isSpaceChar
    match
      (match splitAtFirstEq r2 with
       | some (q, r3) =>
         let ws2 := r3.takeWhile isSpaceChar
         match matchHookTail (r3.dropWhile isSpaceChar) with
         | some (n, cap) => some (k + ws1.length + q + 1 + ws2.length + n, cap)
         | none => none
       | none => none) with
    | some res => some res
    | none =>
      match matchHookTail r2 with
      | some (n, cap) => some (k + ws1.length + n, cap)
      | none => none

/-- One entry of the `usedComponents` list of `extractUsedComponents`. -/
structure UsedComponent : Type where
  name : String
  type : Category
  count : Nat
  firstUsage : String
deriving DecidableEq, Repr

/-- The `componentMap` lookup: a JS `Map` keyed by non-empty `displayName`,
later entries overwriting earlier ones. -/
def componentMapLookup (comps : List Doc) (name : String) : Option Category :=
  comps.foldl
    (fun acc c =>
      if c.displayName ≠ "" && c.displayName == name then some c.type else acc)
    none

/-- The trimmed context window `pageContent.slice(max(0, i-10), min(len, i+endOff)).trim()`. -/
def usageContext (content : List Char) (idx endOff : Nat) : String :=
  trimJs (String.mk (sliceChars content (idx - 10) (min content.length (idx + endOff))))

/-- Find-and-mutate-first: increment the matching entry's count and (for the
JSX/hook passes) replace `firstUsage` when the new context is strictly
longer; `none` when no entry matches. -/
def bumpFirst (name ctx : String) (updateFirst : Bool) :
    List UsedComponent → Option (List UsedComponent)
  | [] => none
  | e :: es =>
    if e.name == name then
      some ({ e with
              count := e.count + 1,
              firstUsage :=
                if updateFirst && ctx.length > e.firstUsage.length then ctx
                else e.firstUsage } :: es)
    else (bumpFirst name ctx updateFirst es).map (e :: ·)

/-- Bump the existing entry or push a fresh one with count 1. -/
def recordUsage (entries : List UsedComponent) (name : String) (t : Category)
    (ctx : String) (updateFirst : Bool) : List UsedComponent :=
  match bumpFirst name ctx updateFirst entries with
  | some l => l
  | none => entries ++ [⟨name, t, 1, ctx⟩]

/-- One `forEach` pass of `extractUsedComponents` over the matches of one
pattern (`endOff` = 50 for JSX, 40 for `hookPattern`, 30 for
`directHookPattern`; only the first two update `firstUsage`). -/
def processMatches (comps : List Doc) (content : List Char) (endOff : Nat)
    (updateFirst : Bool) (entries : List UsedComponent)
    (ms : List (Nat × String)) : List UsedComponent :=
  ms.foldl
    (fun es m =>
      match componentMapLookup comps m.2 with
      | some t => recordUsage es m.2 t (usageContext content m.1 endOff) updateFirst
      | none => es)
    entries

/-- `extractUsedComponents(pageContent, allComponents)`: JSX pass, then
`hookPattern` pass, then `directHookPattern` pass, then the zero-count
filter.  (The `importPattern` scan of the source computes `importedNames`
but never consults it; it contributes nothing to the result.) -/
def extractUsedComponents (pageContent : String) (allComponents : List Doc) :
    List UsedComponent :=
  if pageContent = "" then []
  else
    let content := pageContent.data
    let e1 := processMatches allComponents content 50 true []
      (runScan matchJsxAt content)
    let e2 := processMatches allComponents content 40 true e1
      (runScan matchHookDeclPatternAt content)
    let e3 := processMatches allComponents content 30 false e2
      (runScan (matchUseCallAt isAlnumChar) content)
    e3.filter fun u => 0 < u.count

/-! ## Specification-side definitions

These transcribe what the *specification text* asserts, for comparison
against the embedded source functions. -/

/-- The exclusion substrings exactly as the specification's rule-4 sentence
lists them, minus `router` (which the source tests by *equality*, not by
substring — see the classifier theorems). -/
def claimExclusionSubstrings : List String :=
  ["provider", "context", "nav", "header", "footer", "sidebar", "menu",
   "layout", "button", "input", "modal", "table", "card", "loading",
   "error", "boundary", "portal"]

/-- Left fold that keeps the earliest string attaining the running maximum
length: the value `firstUsage` actually converges to (the first context,
replaced by any strictly longer later one). -/
def keepLongerFold (first : String) (rest : List String) : String :=
  rest.foldl (fun best c => if c.length > best.length then c else best) first

/-- Specification of how one name's entry evolves through one
`processMatches` pass: `e?` is the entry before the pass, the list holds
that name's matches. -/
def entryAfter (name : String) (t : Category) (ctxOf : Nat × String → String)
    (updateFirst : Bool) : Option UsedComponent → List (Nat × String) → Option UsedComponent
  | e?, [] => e?
  | none, m :: ms => entryAfter name t ctxOf updateFirst (some ⟨name, t, 1, ctxOf m⟩) ms
  | some e, m :: ms =>
    entryAfter name t ctxOf updateFirst
      (some { e with
              count := e.count + 1,
              firstUsage :=
                if updateFirst && (ctxOf m).length > e.firstUsage.length then ctxOf m
                else e.firstUsage }) ms

/-! ## Concrete demonstration inputs -/

/-- Known records for the page-dependency scenarios: `Button`, `Input`,
`useForm`. -/
def demoComps : List Doc :=
  [{ displayName := "Button", filePath := "src/components/Button.tsx",
     type := .component, realUsageExamples := [], hookUsages := [] },
   { displayName := "Input", filePath := "src/components/Input.tsx",
     type := .component, realUsageExamples := [], hookUsages := [] },
   { displayName := "useForm", filePath := "src/hooks/useForm.ts",
     type := .hook, realUsageExamples := [], hookUsages := [] }]

/-- A contact page calling `useForm` *bare* (not as a declaration
initializer), with one `<Button/>` and two `<Input/>`. -/
def demoPageBareCall : String :=
  "export default function ContactForm() \x7b\n  useForm(onSubmit)\n  return <div><Button/><Input/><Input/></div>\n\x7d\n"

/-- The same page but with the idiomatic `const form = useForm(onSubmit)`
declaration. -/
def demoPageDeclCall : String :=
  "export default function ContactForm() \x7b\n  const form = useForm(onSubmit)\n  return <div><Button/><Input/><Input/></div>\n\x7d\n"

/-- A page whose first `<Button/>` sits at index 0 (clipped 50-character
context window) while the second occurrence enjoys a full 60-character
window. -/
def demoPageTwice : String :=
  "<Button/>abcdefghijklmnopqrstuvwxyzabcdefghijklmnopqrstuvwxyzk<Button/>abcdefghijklmnopqrstuvwxyzabcdefghijklmnopqrstuvwxyz"

/-- The declarator of `const x = useful(1)`. -/
def demoUsefulDecl : VarDeclInfo :=
  { callee := some "useful", line := 1, destructuring := none }

/-- A file declaring `const x = useful(1)` — the callee starts with `use`
but is not `use[A-Z]`-shaped, so no pass-1 regex collects it. -/
def demoUsefulFile : SourceFile :=
  { path := "src/a.ts", content := "const x = useful(1)", tsParsedSymbols := [],
    jsParsedComponents := [], jsParseOk := true,
    varDecls := [demoUsefulDecl] }

/-- A classifier environment whose route-reference search always succeeds —
the adversarial environment for short-circuit claims. -/
def demoEnvRouteTrue : ClassifyEnv :=
  { readFile := fun _ => none, referencedInRoutes := fun _ _ => true }

/-- An override forcing `NavBar` (an exclusion-list name) to `page`. -/
def demoNavOverride : ComponentOverride :=
  { filePath := "src/NavBar.tsx", componentName := "NavBar",
    originalType := .component, overrideType := .page,
    timestamp := "2024-01-01T00:00:00.000Z", reason := none }

/-- A scan environment that finds no usage examples. -/
def demoScanEnv : ScanEnv :=
  { componentExampleOccurrences := fun _ => [],
    hookExampleOccurrences := fun _ => [] }

/-- A one-file markdown snapshot for exercising `scanComponents`. -/
def demoMdxFile : SourceFile :=
  { path := "docs/guide.md", content := "# Guide\n\nHow to use the library.\n",
    tsParsedSymbols := [], jsParsedComponents := [], jsParseOk := true,
    varDecls := [] }

/-! # Theorems -/

/-! ## Helper lemmas -/

/-- Each of the specification's substring clauses (with `router` as an exact
name) implies the source's `isObviouslyNotPage` disjunction. -/
theorem isObviouslyNotPage_of_claim (nameLower : String)
    (h : claimExclusionSubstrings.any (fun s => strIncludes nameLower s) = true ∨
         nameLower = "router") :
    isObviouslyNotPage nameLower = true := by
  unfold isObviouslyNotPage
  rcases h with h | h
  · simp only [claimExclusionSubstrings, List.any_cons, List.any_nil,
      Bool.or_eq_true, Bool.or_false] at h
    rcases h with h|h|h|h|h|h|h|h|h|h|h|h|h|h|h|h|h <;> simp [h]
  · subst h; decide

/-! ## C1 — override supremacy -/

/-- C1: whenever an override record matches `(filePath, name)`, the
classifier returns its `overrideType`, before any heuristic runs. -/
theorem classifier_override_supremacy (env : ClassifyEnv) (cfg : OverridesConfig)
    (filePath name : String) (code : Option String) (o : ComponentOverride)
    (h : findOverride cfg.overrides filePath name = some o) :
    analyzeCodeContent env (some cfg) filePath name code = o.overrideType := by
  unfold analyzeCodeContent
  simp [h]

/-- C1 witness: `NavBar` matches the exclusion list (contains `nav`), yet the
override to `page` wins, in an environment where every heuristic input is
adversarial. -/
theorem classifier_override_supremacy_witness :
    isObviouslyNotPage (toLowerStr "NavBar") = true ∧
    analyzeCodeContent demoEnvRouteTrue (some ⟨"1.0.0", [demoNavOverride]⟩)
      "src/NavBar.tsx" "NavBar" (some "export function NavBar() \x7b\x7d") =
      CoreType.page :=
  ⟨by decide,
   classifier_override_supremacy demoEnvRouteTrue ⟨"1.0.0", [demoNavOverride]⟩
     "src/NavBar.tsx" "NavBar" (some "export function NavBar() \x7b\x7d")
     demoNavOverride (by decide)⟩

/-! ## C2 — classifier totality -/

/-- C2: on every input the classifier returns exactly one category, and it is
one of `component`, `hook`, `page` (the cascade ends in an unconditional
`component` default; no input yields a fourth value or none at all). -/
theorem classifier_total (env : ClassifyEnv) (cfg : Option OverridesConfig)
    (filePath name : String) (code : Option String) :
    (analyzeCodeContent env cfg filePath name code).toCategory = Category.component ∨
    (analyzeCodeContent env cfg filePath name code).toCategory = Category.hook ∨
    (analyzeCodeContent env cfg filePath name code).toCategory = Category.page := by
  cases analyzeCodeContent env cfg filePath name code <;> simp [CoreType.toCategory]

/-! ## C3 — the obvious-non-page exclusion list -/

/-- C3 counterexample: `AppRouter` *contains* the claimed exclusion substring
`router`, has no override and is no hook, yet the classifier does not
short-circuit to `component`: with a route-reference search that succeeds it
returns `page` (the source tests `nameLower === 'router'` by equality, not
by substring). -/
theorem classifier_exclusion_counterexample :
    strIncludes (toLowerStr "AppRouter") "router" = true ∧
    isHookName "AppRouter" = false ∧
    analyzeCodeContent demoEnvRouteTrue (some emptyOverridesConfig)
      "src/components/AppRouter.tsx" "AppRouter"
      (some "export function AppRouter() \x7b return null \x7d") =
      CoreType.page := by
  refine ⟨by decide, by decide, by decide⟩

/-- C3 (amended): for a symbol with no matching override that is not a hook
by name, if its lowercased name contains one of the exclusion substrings
(provider, context, nav, header, footer, sidebar, menu, layout, button,
input, modal, table, card, loading, error, boundary, portal) — or *is
exactly* `router` — the classifier returns `component` for every
environment, in particular independently of the route-reference search. -/
theorem classifier_exclusion_shortcircuit (env : ClassifyEnv) (cfg : OverridesConfig)
    (filePath name : String) (code : Option String)
    (hov : findOverride cfg.overrides filePath name = none)
    (hhook : isHookName name = false)
    (hex : claimExclusionSubstrings.any (fun s => strIncludes (toLowerStr name) s) = true ∨
           toLowerStr name = "router") :
    analyzeCodeContent env (some cfg) filePath name code = CoreType.component := by
  have hob := isObviouslyNotPage_of_claim (toLowerStr name) hex
  have hsw : strStartsWith name "use" = false := hhook
  unfold analyzeCodeContent
  simp only [Option.bind_eq_bind, Option.some_bind, hov, hhook, hsw, hob,
    Bool.false_eq_true, Bool.false_and, if_false, if_true]
  split <;> rfl

/-- C3 witness: `Navigation` (contains `nav`) is classified `component` even
when the route-reference oracle says it is referenced everywhere. -/
theorem classifier_exclusion_shortcircuit_witness :
    analyzeCodeContent demoEnvRouteTrue (some emptyOverridesConfig)
      "src/components/Navigation.tsx" "Navigation"
      (some "export function Navigation() \x7b return null \x7d") =
      CoreType.component :=
  classifier_exclusion_shortcircuit demoEnvRouteTrue emptyOverridesConfig
    "src/components/Navigation.tsx" "Navigation"
    (some "export function Navigation() \x7b return null \x7d")
    (by decide) (by decide) (Or.inl (by decide))

/-! ## C4 — the hook usage scan -/

/-- Elements surviving a fold of `insertUniq` come from the accumulator or
from the folded list. -/
theorem mem_foldl_insertUniq (l : List String) (acc : List String) (x : String)
    (h : x ∈ l.foldl insertUniq acc) : x ∈ acc ∨ x ∈ l := by
  induction l generalizing acc with
  | nil => exact Or.inl h
  | cons a t ih =>
    rcases ih (insertUniq acc a) h with h' | h'
    · unfold insertUniq at h'
      by_cases ha : a ∈ acc
      · rw [if_pos ha] at h'; exact Or.inl h'
      · rw [if_neg ha] at h'
        rcases List.mem_append.mp h' with h'' | h''
        · exact Or.inl h''
        · simp only [List.mem_singleton] at h''
          subst h''
          exact Or.inr (List.mem_cons_self _ _)
    · exact Or.inr (List.mem_cons_of_mem _ h')

/-- Elements of the registry fold come from the built-in base or from one
file's regex captures. -/
theorem mem_findAllHookNames (files : List SourceFile) (x : String)
    (h : x ∈ findAllHookNames files) :
    x ∈ ALL_BUILT_IN_HOOKS ∨
      ∃ f ∈ files, x ∈ findAllHookNamesInContent f.content.data := by
  unfold findAllHookNames at h
  suffices h' : ∀ (fs : List SourceFile) (acc : List String),
      x ∈ fs.foldl (fun acc f =>
        if isTsPath f.path || isJsPath f.path then
          (findAllHookNamesInContent f.content.data).foldl insertUniq acc
        else acc) acc →
      x ∈ acc ∨ ∃ f ∈ fs, x ∈ findAllHookNamesInContent f.content.data by
    rcases h' files _ h with hbase | hfile
    · rcases mem_foldl_insertUniq _ _ _ hbase with hnil | hb
      · simp at hnil
      · exact Or.inl hb
    · exact Or.inr hfile
  intro fs
  induction fs with
  | nil => intro acc hacc; exact Or.inl hacc
  | cons f t ih =>
    intro acc hacc
    rcases ih _ hacc with h' | h'
    · by_cases htj : (isTsPath f.path || isJsPath f.path) = true
      · simp only [htj, if_true] at h'
        rcases mem_foldl_insertUniq _ _ _ h' with h'' | h''
        · exact Or.inl h''
        · exact Or.inr ⟨f, List.mem_cons_self _ _, h''⟩
      · simp only [htj, if_false] at h'
        exact Or.inl h'
    · obtain ⟨g, hg, hx⟩ := h'
      exact Or.inr ⟨g, List.mem_cons_of_mem _ hg, hx⟩

/-- Captures of `matchUseIdent` start with `use`. -/
theorem matchUseIdent_capture (cls : Char → Bool) (l : List Char) (n : Nat)
    (cap : String) (r : List Char) (h : matchUseIdent cls l = some (n, cap, r)) :
    strStartsWith cap "use" = true := by
  unfold matchUseIdent at h
  split at h
  · split at h
    · simp only [Option.some.injEq, Prod.mk.injEq] at h
      obtain ⟨-, hcap, -⟩ := h
      subst hcap
      simp [strStartsWith, List.isPrefixOf]
    · exact absurd h (by simp)
  · exact absurd h (by simp)

/-- Captures of the `\b(use[A-Z]…)\s*\(` call matchers start with `use`. -/
theorem matchUseCallAt_capture (cls : Char → Bool) (prev : Option Char)
    (l : List Char) (n : Nat) (cap : String)
    (h : matchUseCallAt cls prev l = some (n, cap)) :
    strStartsWith cap "use" = true := by
  unfold matchUseCallAt at h
  split at h
  · rcases hid : matchUseIdent cls l with _ | ⟨⟨n', cap', r'⟩⟩
    · rw [hid] at h; simp at h
    · rw [hid] at h
      simp only at h
      split at h
      · simp only [Option.some.injEq, Prod.mk.injEq] at h
        obtain ⟨-, hcap⟩ := h
        subst hcap
        exact matchUseIdent_capture cls l n' cap' r' hid
      · exact absurd h (by simp)
  · exact absurd h (by simp)

/-- Captures of the hook-declaration regex start with `use`. -/
theorem matchHookDeclAt_capture (prev : Option Char) (l : List Char) (n : Nat)
    (cap : String) (h : matchHookDeclAt prev l = some (n, cap)) :
    strStartsWith cap "use" = true := by
  unfold matchHookDeclAt at h
  rcases hfc : matchFnConst l with _ | ⟨⟨k, r⟩⟩
  · rw [hfc] at h; simp at h
  · rw [hfc] at h
    simp only at h
    split at h
    · exact absurd h (by simp)
    · rcases hid : matchUseIdent isLetterChar (r.dropWhile isSpaceChar) with _ | ⟨⟨n', cap', r'⟩⟩
      · rw [hid] at h; simp at h
      · rw [hid] at h
        simp only [Option.some.injEq, Prod.mk.injEq] at h
        obtain ⟨-, hcap⟩ := h
        subst hcap
        exact matchUseIdent_capture _ _ n' cap' r' hid

/-- Captures of the hook-export regex start with `use`. -/
theorem matchHookExportAt_capture (prev : Option Char) (l : List Char) (n : Nat)
    (cap : String) (h : matchHookExportAt prev l = some (n, cap)) :
    strStartsWith cap "use" = true := by
  unfold matchHookExportAt at h
  split at h
  · simp only at h
    split at h
    · exact absurd h (by simp)
    · rcases hd : matchHookDeclAt none (((l.drop 6)).dropWhile isSpaceChar) with _ | ⟨⟨m, cap'⟩⟩
      · rw [hd] at h; simp at h
      · rw [hd] at h
        simp only [Option.some.injEq, Prod.mk.injEq] at h
        obtain ⟨-, hcap⟩ := h
        subst hcap
        exact matchHookDeclAt_capture _ _ m cap' hd
  · exact absurd h (by simp)

/-- Every capture the scan driver collects satisfies any property all
matcher captures satisfy. -/
theorem scanAllAux_capture {P : String → Prop}
    (matchAt : Option Char → List Char → Option (Nat × String))
    (h : ∀ prev l n cap, matchAt prev l = some (n, cap) → P cap) :
    ∀ (fuel : Nat) (prev : Option Char) (pos : Nat) (l : List Char),
      ∀ m ∈ scanAllAux matchAt fuel prev pos l, P m.2 := by
  intro fuel
  induction fuel with
  | zero => intro prev pos l m hm; simp [scanAllAux] at hm
  | succ fuel ih =>
    intro prev pos l m hm
    cases l with
    | nil => simp [scanAllAux] at hm
    | cons c rest =>
      rw [scanAllAux] at hm
      rcases hcall : matchAt prev (c :: rest) with _ | ⟨⟨len, cap⟩⟩ <;>
        rw [hcall] at hm <;> simp only at hm
      · exact ih _ _ _ m hm
      · have hcap := h prev (c :: rest) len cap hcall
        by_cases hlen : len ≤ 1
        · rw [if_pos hlen] at hm
          rcases List.mem_cons.mp hm with hm' | hm'
          · subst hm'; exact hcap
          · exact ih _ _ _ m hm'
        · rw [if_neg hlen] at hm
          rcases List.mem_cons.mp hm with hm' | hm'
          · subst hm'; exact hcap
          · exact ih _ _ _ m hm'

/-- Same, at the `runScan` wrapper. -/
theorem runScan_capture {P : String → Prop}
    (matchAt : Option Char → List Char → Option (Nat × String))
    (h : ∀ prev l n cap, matchAt prev l = some (n, cap) → P cap)
    (l : List Char) : ∀ m ∈ runScan matchAt l, P m.2 :=
  scanAllAux_capture matchAt h (l.length + 1) none 0 l

/-- Every name the three pass-1 regex families collect starts with `use`. -/
theorem findAllHookNamesInContent_start (content : List Char) (x : String)
    (h : x ∈ findAllHookNamesInContent content) :
    strStartsWith x "use" = true := by
  unfold findAllHookNamesInContent at h
  rcases List.mem_append.mp h with h' | h'
  · rcases List.mem_append.mp h' with h'' | h''
    · obtain ⟨m, hm, hx⟩ := List.mem_map.mp h''
      subst hx
      exact runScan_capture _ (matchUseCallAt_capture isLetterChar) content m hm
    · obtain ⟨m, hm, hx⟩ := List.mem_map.mp h''
      subst hx
      exact runScan_capture _ matchHookExportAt_capture content m hm
  · obtain ⟨m, hm, hx⟩ := List.mem_map.mp h'
    subst hx
    exact runScan_capture _ matchHookDeclAt_capture content m hm

/-- One declarator's contribution to the usage scan. -/
theorem hookUsageStep_eq_some (f : SourceFile) (d : VarDeclInfo)
    (p : String × CallSite) :
    (match d.callee with
     | some hookName =>
       if strStartsWith hookName "use" then some (hookName, mkHookUsageRecord f d)
       else none
     | none => none) = some p ↔
      d.callee = some p.1 ∧ strStartsWith p.1 "use" = true ∧
        p.2 = mkHookUsageRecord f d := by
  obtain ⟨p1, p2⟩ := p
  rcases hc : d.callee with _ | nm
  · simp
  · change (if strStartsWith nm "use" then some (nm, mkHookUsageRecord f d) else none)
        = some (p1, p2) ↔ _
    by_cases hsw : strStartsWith nm "use" = true
    · rw [if_pos hsw]
      simp only [Option.some.injEq, Prod.mk.injEq]
      constructor
      · rintro ⟨rfl, rfl⟩; exact ⟨rfl, hsw, rfl⟩
      · rintro ⟨h1, -, h3⟩
        exact ⟨h1, h3.symm⟩
    · rw [if_neg hsw]
      constructor
      · intro h; exact absurd h (by simp)
      · rintro ⟨h1, h2, -⟩
        simp only [Option.some.injEq] at h1
        subst h1
        exact absurd h2 hsw

/-- C4 (amended): the pass-2 usage scan records a call-site for exactly
those variable declarations whose initializer calls an identifier starting
with `use` — a strictly larger set than the pass-1 registry: every registry
name does start with `use` (so registry-named calls are all recorded), but
the converse fails (see the counterexample). -/
theorem hook_usage_scan_spec (files : List SourceFile) (p : String × CallSite) :
    (p ∈ scanAllHookUsages files ↔
      ∃ f ∈ files, (isTsPath f.path || isJsPath f.path) = true ∧
        ∃ d ∈ f.varDecls, d.callee = some p.1 ∧ strStartsWith p.1 "use" = true ∧
          p.2 = mkHookUsageRecord f d) ∧
    (∀ nm ∈ findAllHookNames files, strStartsWith nm "use" = true) := by
  constructor
  · unfold scanAllHookUsages
    rw [List.mem_flatMap]
    constructor
    · rintro ⟨f, hf, hp⟩
      by_cases htj : (isTsPath f.path || isJsPath f.path) = true
      · rw [if_pos htj] at hp
        obtain ⟨d, hd, hsome⟩ := List.mem_filterMap.mp hp
        exact ⟨f, hf, htj, d, hd, (hookUsageStep_eq_some f d p).mp hsome⟩
      · rw [if_neg htj] at hp
        simp at hp
    · rintro ⟨f, hf, htj, d, hd, hprops⟩
      refine ⟨f, hf, ?_⟩
      rw [if_pos htj]
      exact List.mem_filterMap.mpr ⟨d, hd, (hookUsageStep_eq_some f d p).mpr hprops⟩
  · intro nm hnm
    have hall : ∀ b ∈ ALL_BUILT_IN_HOOKS, strStartsWith b "use" = true := by decide
    rcases mem_findAllHookNames files nm hnm with hb | ⟨f, -, hc⟩
    · exact hall nm hb
    · exact findAllHookNamesInContent_start _ _ hc

/-- C4 witness: the declaration `const x = useful(1)` — whose callee starts
with `use` — is recorded by the scan, via the characterization. -/
theorem hook_usage_scan_spec_witness :
    ("useful", mkHookUsageRecord demoUsefulFile demoUsefulDecl) ∈
      scanAllHookUsages [demoUsefulFile] :=
  (hook_usage_scan_spec [demoUsefulFile]
      ("useful", mkHookUsageRecord demoUsefulFile demoUsefulDecl)).1.mpr
    ⟨demoUsefulFile, List.mem_cons_self _ _, by decide, demoUsefulDecl,
     List.mem_cons_self _ _, by decide, by decide, rfl⟩

/-- C4 counterexample: the scan records a call-site for `useful`, although
`useful` is not in the pass-1 known-hook-name set (no `use[A-Z]` shape, not
built-in) — refuting "a name outside that set produces no record". -/
theorem hook_usage_scan_counterexample :
    (scanAllHookUsages [demoUsefulFile]).map Prod.fst = ["useful"] ∧
    ¬ "useful" ∈ findAllHookNames [demoUsefulFile] := by
  exact ⟨by decide, by decide⟩

/-! ## C5 — page-dependency tallies -/

/-- C5 counterexample: a contact page containing `<Button/>` once,
`<Input/>` twice and exactly one `useForm(...)` call — written as the
idiomatic declaration `const form = useForm(onSubmit)` — tallies
`useForm = 2`, not 1: both `hookPattern` and `directHookPattern` match the
same call. -/
theorem page_dependency_counts_counterexample :
    (extractUsedComponents demoPageDeclCall demoComps).map
        (fun u => (u.name, u.count)) =
      [("Button", 1), ("Input", 2), ("useForm", 2)] := by
  decide

/-- C5 (amended): the scenario tallies `Button = 1`, `Input = 2`,
`useForm = 1` when the single `useForm(...)` call is a bare call (not a
variable-declaration initializer); when it is an initializer the two hook
regexes both match and `useForm` is tallied `2`. -/
theorem page_dependency_counts :
    (extractUsedComponents demoPageBareCall demoComps).map
        (fun u => (u.name, u.count)) =
      [("Button", 1), ("Input", 2), ("useForm", 1)] ∧
    (extractUsedComponents demoPageDeclCall demoComps).map
        (fun u => (u.name, u.count)) =
      [("Button", 1), ("Input", 2), ("useForm", 2)] := by
  constructor <;> decide

/-! ## C6 — the first-usage snippet -/

/-- A foldl step that preserves a property of the accumulated list elements
preserves it through the whole fold. -/
theorem foldl_preserves {α β : Type _} (P : α → Prop) (step : List α → β → List α)
    (hstep : ∀ acc b, (∀ d ∈ acc, P d) → ∀ d ∈ step acc b, P d) :
    ∀ (bs : List β) (acc : List α), (∀ d ∈ acc, P d) →
      ∀ d ∈ List.foldl step acc bs, P d := by
  intro bs
  induction bs with
  | nil => intro acc h d hd; exact h d hd
  | cons b t ih => intro acc h d hd; exact ih _ (hstep acc b h) d hd

/-- The cons equation of `bumpFirst`. -/
theorem bumpFirst_cons (name ctx : String) (updF : Bool) (e : UsedComponent)
    (es : List UsedComponent) :
    bumpFirst name ctx updF (e :: es) =
      if e.name == name then
        some ({ e with
                count := e.count + 1,
                firstUsage := if updF && ctx.length > e.firstUsage.length then ctx
                  else e.firstUsage } :: es)
      else (bumpFirst name ctx updF es).map (e :: ·) := rfl

/-- Outside the matching entry, `recordUsage` just walks past. -/
theorem recordUsage_cons_ne (e : UsedComponent) (es : List UsedComponent)
    (name : String) (t : Category) (ctx : String) (updF : Bool)
    (h : (e.name == name) = false) :
    recordUsage (e :: es) name t ctx updF = e :: recordUsage es name t ctx updF := by
  unfold recordUsage
  rw [bumpFirst_cons, if_neg (by simp [h])]
  cases hbe : bumpFirst name ctx updF es <;> simp [hbe]

/-- The head entry is bumped in place when its name matches. -/
theorem recordUsage_cons_eq (e : UsedComponent) (es : List UsedComponent)
    (name : String) (t : Category) (ctx : String) (updF : Bool)
    (h : (e.name == name) = true) :
    recordUsage (e :: es) name t ctx updF =
      { e with
        count := e.count + 1,
        firstUsage := if updF && ctx.length > e.firstUsage.length then ctx
          else e.firstUsage } :: es := by
  unfold recordUsage
  rw [bumpFirst_cons, if_pos h]

/-- What `recordUsage` leaves as the entry of the recorded name: the bumped
old entry, or a fresh one with count 1. -/
theorem recordUsage_find_self (es : List UsedComponent) (name : String)
    (t : Category) (ctx : String) (updF : Bool) :
    (recordUsage es name t ctx updF).find? (fun e => e.name == name) =
      some (match es.find? (fun e => e.name == name) with
            | none => ⟨name, t, 1, ctx⟩
            | some e =>
              { e with
                count := e.count + 1,
                firstUsage := if updF && ctx.length > e.firstUsage.length then ctx
                  else e.firstUsage }) := by
  induction es with
  | nil =>
    have hru : recordUsage [] name t ctx updF = [⟨name, t, 1, ctx⟩] := rfl
    rw [hru, List.find?_nil]
    rw [List.find?_cons_of_pos (p := fun (u : UsedComponent) => u.name == name) _
      (show ((⟨name, t, 1, ctx⟩ : UsedComponent).name == name) = true from
        beq_self_eq_true name)]
  | cons e es ih =>
    by_cases he : (e.name == name) = true
    · rw [recordUsage_cons_eq e es name t ctx updF he]
      rw [List.find?_cons_of_pos (p := fun (u : UsedComponent) => u.name == name) _ he]
      rw [List.find?_cons_of_pos (p := fun (u : UsedComponent) => u.name == name) _
        (show (({ e with
          count := e.count + 1,
          firstUsage := if updF && ctx.length > e.firstUsage.length then ctx
            else e.firstUsage } : UsedComponent).name == name) = true from he)]
    · have he' : ¬(e.name == name) = true := by simp [he]
      rw [recordUsage_cons_ne e es name t ctx updF (by simpa using he)]
      rw [List.find?_cons_of_neg (p := fun (u : UsedComponent) => u.name == name) _ he',
        List.find?_cons_of_neg (p := fun (u : UsedComponent) => u.name == name) _ he']
      exact ih

/-- `recordUsage` for one name leaves every other name's entry untouched. -/
theorem recordUsage_find_ne (es : List UsedComponent) (name : String)
    (t : Category) (ctx : String) (updF : Bool) (other : String)
    (hne : name ≠ other) :
    (recordUsage es name t ctx updF).find? (fun e => e.name == other) =
      es.find? (fun e => e.name == other) := by
  induction es with
  | nil =>
    have hru : recordUsage [] name t ctx updF = [⟨name, t, 1, ctx⟩] := rfl
    rw [hru, List.find?_nil]
    rw [List.find?_cons_of_neg (p := fun (u : UsedComponent) => u.name == other) _
      (show ¬((⟨name, t, 1, ctx⟩ : UsedComponent).name == other) = true by
        simp [beq_false_of_ne hne]), List.find?_nil]
  | cons e es ih =>
    by_cases he : (e.name == name) = true
    · have hen : e.name = name := eq_of_beq he
      have heo : ¬(e.name == other) = true := by simp [hen, hne]
      rw [recordUsage_cons_eq e es name t ctx updF he]
      rw [List.find?_cons_of_neg (p := fun (u : UsedComponent) => u.name == other) _ heo]
      rw [List.find?_cons_of_neg (p := fun (u : UsedComponent) => u.name == other) _
        (show ¬(({ e with
          count := e.count + 1,
          firstUsage := if updF && ctx.length > e.firstUsage.length then ctx
            else e.firstUsage } : UsedComponent).name == other) = true from heo)]
    · rw [recordUsage_cons_ne e es name t ctx updF (by simpa using he)]
      by_cases heo : (e.name == other) = true
      · rw [List.find?_cons_of_pos (p := fun (u : UsedComponent) => u.name == other) _ heo,
          List.find?_cons_of_pos (p := fun (u : UsedComponent) => u.name == other) _ heo]
      · rw [List.find?_cons_of_neg (p := fun (u : UsedComponent) => u.name == other) _ heo,
          List.find?_cons_of_neg (p := fun (u : UsedComponent) => u.name == other) _ heo]
        exact ih

/-- One `forEach` step of a pass. -/
theorem processMatches_cons (comps : List Doc) (content : List Char)
    (endOff : Nat) (updF : Bool) (entries : List UsedComponent)
    (m : Nat × String) (ms : List (Nat × String)) :
    processMatches comps content endOff updF entries (m :: ms) =
      processMatches comps content endOff updF
        (match componentMapLookup comps m.2 with
         | some t' => recordUsage entries m.2 t' (usageContext content m.1 endOff) updF
         | none => entries) ms := rfl

/-- `entryAfter` on no matches changes nothing. -/
theorem entryAfter_nil (name : String) (t : Category)
    (ctxOf : Nat × String → String) (updF : Bool)
    (e? : Option UsedComponent) : entryAfter name t ctxOf updF e? [] = e? := by
  cases e? <;> rfl

/-- How one pass transforms the entry of one known name: fold the name's own
matches through the bump-or-create step (`entryAfter`). -/
theorem processMatches_find (comps : List Doc) (content : List Char)
    (endOff : Nat) (updF : Bool) (name : String) (t : Category)
    (hlook : componentMapLookup comps name = some t) :
    ∀ (ms : List (Nat × String)) (entries : List UsedComponent),
      (processMatches comps content endOff updF entries ms).find?
          (fun e => e.name == name) =
        entryAfter name t (fun m => usageContext content m.1 endOff) updF
          (entries.find? (fun e => e.name == name))
          (ms.filter (fun m => m.2 == name)) := by
  intro ms
  induction ms with
  | nil =>
    intro entries
    rw [show processMatches comps content endOff updF entries [] = entries from rfl,
      List.filter_nil, entryAfter_nil]
  | cons m ms ih =>
    intro entries
    rw [processMatches_cons]
    by_cases hmn : (m.2 == name) = true
    · have hm2 : m.2 = name := eq_of_beq hmn
      rw [List.filter_cons_of_pos (by simpa using hmn), ih]
      rw [hm2, hlook]
      rcases hfe : entries.find? (fun e => e.name == name) with _ | e <;>
        rw [recordUsage_find_self, hfe] <;> rfl
    · have hm2 : m.2 ≠ name := by
        intro hcontra
        rw [hcontra] at hmn
        exact hmn (beq_self_eq_true name)
      rw [List.filter_cons_of_neg (by simpa using hmn), ih]
      rcases hl : componentMapLookup comps m.2 with _ | t'
      · rfl
      · rw [show (match some t' with
            | some t' => recordUsage entries m.2 t' (usageContext content m.1 endOff) updF
            | none => entries) =
            recordUsage entries m.2 t' (usageContext content m.1 endOff) updF from rfl]
        rw [recordUsage_find_ne _ _ _ _ _ _ hm2]

/-- Folding `entryAfter` over matches from an existing entry: count grows by
the number of matches, and the snippet becomes the earliest context
attaining the maximal length (when the pass updates snippets). -/
theorem entryAfter_some (name : String) (t : Category)
    (ctxOf : Nat × String → String) (e : UsedComponent) :
    ∀ ms : List (Nat × String),
      entryAfter name t ctxOf true (some e) ms =
        some { e with
               count := e.count + ms.length,
               firstUsage := keepLongerFold e.firstUsage (ms.map ctxOf) } := by
  intro ms
  induction ms generalizing e with
  | nil => simp [entryAfter, keepLongerFold]
  | cons m ms ih =>
    show entryAfter name t ctxOf true
        (some { e with
                count := e.count + 1,
                firstUsage := if true && (ctxOf m).length > e.firstUsage.length
                  then ctxOf m else e.firstUsage }) ms = _
    rw [ih]
    simp only [List.length_cons, List.map_cons, keepLongerFold, List.foldl_cons,
      Bool.true_and, decide_eq_true_eq, Option.some.injEq, UsedComponent.mk.injEq]
    exact ⟨trivial, trivial, by omega, trivial⟩

/-- Folding `entryAfter` with `updateFirst = false` (the `directHookPattern`
pass): the count grows by the number of matches and the snippet is never
replaced. -/
theorem entryAfter_some_false (name : String) (t : Category)
    (ctxOf : Nat × String → String) (e : UsedComponent) :
    ∀ ms : List (Nat × String),
      entryAfter name t ctxOf false (some e) ms =
        some { e with count := e.count + ms.length } := by
  intro ms
  induction ms generalizing e with
  | nil => simp [entryAfter]
  | cons m ms ih =>
    show entryAfter name t ctxOf false
        (some { e with
                count := e.count + 1,
                firstUsage := if false && (ctxOf m).length > e.firstUsage.length
                  then ctxOf m else e.firstUsage }) ms = _
    rw [ih]
    simp only [Bool.false_and, Bool.false_eq_true, if_false, List.length_cons,
      Option.some.injEq, UsedComponent.mk.injEq]
    exact ⟨trivial, trivial, by omega, trivial⟩

/-- Captures of `(use[A-Z][a-zA-Z0-9]*)\s*\(` start with `use`. -/
theorem matchHookTail_capture (l : List Char) (n : Nat) (cap : String)
    (h : matchHookTail l = some (n, cap)) : strStartsWith cap "use" = true := by
  unfold matchHookTail at h
  rcases hid : matchUseIdent isAlnumChar l with _ | ⟨⟨a, cap2, r2⟩⟩ <;> rw [hid] at h
  · simp at h
  · simp only at h
    by_cases hp : (r2.dropWhile isSpaceChar).head? = some '('
    · rw [if_pos hp] at h
      simp only [Option.some.injEq, Prod.mk.injEq] at h
      obtain ⟨-, hcap⟩ := h
      subst hcap
      exact matchUseIdent_capture _ _ a cap2 r2 hid
    · rw [if_neg hp] at h
      exact absurd h (by simp)

/-- Captures of the `hookPattern` declaration matcher start with `use`. -/
theorem matchHookDeclPatternAt_capture (prev : Option Char) (l : List Char)
    (n : Nat) (cap : String) (h : matchHookDeclPatternAt prev l = some (n, cap)) :
    strStartsWith cap "use" = true := by
  unfold matchHookDeclPatternAt at h
  split at h
  · exact absurd h (by simp)
  · simp only at h
    split at h
    · -- the optional-group branch succeeded
      rename_i res heqA
      simp only [Option.some.injEq] at h
      subst h
      split at heqA
      · split at heqA
        · simp only [Option.some.injEq, Prod.mk.injEq] at heqA
          rename_i nT capT hT
          obtain ⟨-, hcap⟩ := heqA
          subst hcap
          exact matchHookTail_capture _ nT capT hT
        · exact absurd heqA (by simp)
      · exact absurd heqA (by simp)
    · -- the group-less branch
      split at h
      · simp only [Option.some.injEq, Prod.mk.injEq] at h
        rename_i nT capT hT
        obtain ⟨-, hcap⟩ := h
        subst hcap
        exact matchHookTail_capture _ nT capT hT
      · exact absurd h (by simp)

/-- Captures of `jsxPattern` begin with an uppercase letter, so they never
begin with `use`. -/
theorem matchJsxAt_capture (prev : Option Char) (l : List Char) (n : Nat)
    (cap : String) (h : matchJsxAt prev l = some (n, cap)) :
    strStartsWith cap "use" = false := by
  unfold matchJsxAt at h
  split at h
  · rename_i c rest
    split at h
    · rename_i hup
      simp only at h
      rcases hjd : jsxDotTail (rest.dropWhile isAlnumChar).length
          (rest.dropWhile isAlnumChar) with ⟨n2, capTail, r2⟩
      rw [hjd] at h
      simp only [Option.some.injEq, Prod.mk.injEq] at h
      obtain ⟨-, hcap⟩ := h
      subst hcap
      have hc : c ≠ 'u' := by
        intro hcu
        subst hcu
        simp [isUpperChar] at hup
      simp [strStartsWith, List.isPrefixOf, Ne.symm hc]
    · exact absurd h (by simp)
  · exact absurd h (by simp)

/-- `recordUsage` keeps all counts positive. -/
theorem recordUsage_count_pos (es : List UsedComponent) (name : String)
    (t : Category) (ctx : String) (updF : Bool)
    (h : ∀ e ∈ es, 0 < e.count) :
    ∀ e ∈ recordUsage es name t ctx updF, 0 < e.count := by
  induction es with
  | nil =>
    intro e he
    have : recordUsage [] name t ctx updF = [⟨name, t, 1, ctx⟩] := rfl
    rw [this] at he
    rcases List.mem_singleton.mp he with rfl
    exact Nat.one_pos
  | cons a es ih =>
    intro e he
    by_cases ha : (a.name == name) = true
    · rw [recordUsage_cons_eq a es name t ctx updF ha] at he
      rcases List.mem_cons.mp he with rfl | he'
      · exact Nat.succ_pos _
      · exact h e (List.mem_cons_of_mem _ he')
    · rw [recordUsage_cons_ne a es name t ctx updF (by simpa using ha)] at he
      rcases List.mem_cons.mp he with rfl | he'
      · exact h e (List.mem_cons_self _ _)
      · exact ih (fun x hx => h x (List.mem_cons_of_mem _ hx)) e he'

/-- A pass keeps all counts positive. -/
theorem processMatches_count_pos (comps : List Doc) (content : List Char)
    (endOff : Nat) (updF : Bool) (ms : List (Nat × String))
    (entries : List UsedComponent) (h : ∀ e ∈ entries, 0 < e.count) :
    ∀ e ∈ processMatches comps content endOff updF entries ms, 0 < e.count := by
  unfold processMatches
  refine foldl_preserves _ _ ?_ ms entries h
  intro acc m hacc e he
  rcases hl : componentMapLookup comps m.2 with _ | t' <;> rw [hl] at he
  · exact hacc e he
  · exact recordUsage_count_pos acc m.2 t' _ updF hacc e he

/-- C6 (amended): full per-name characterization of the analyzer's entry for
a page.  A name not starting with `use` is touched only by the JSX pass: the
entry exists exactly when the JSX scan matches the name, its count is the
number of JSX matches, and its snippet is the context of the earliest
occurrence attaining the maximal trimmed-context length (any later
occurrence with a strictly longer context replaces it).  A name starting
with `use` is touched only by the two hook passes: the `hookPattern` pass
creates and updates the entry the same way (window `+40`), while the
`directHookPattern` pass only increments the count and never replaces the
snippet — when no `hookPattern` match exists, the snippet stays the *first*
`directHookPattern` match's context (window `+30`). -/
theorem first_usage_snippet_spec (pageContent : String) (comps : List Doc)
    (name : String) (t : Category)
    (hlook : componentMapLookup comps name = some t) :
    (extractUsedComponents pageContent comps).find? (fun u => u.name == name) =
      if strStartsWith name "use" = true then
        match
          (runScan matchHookDeclPatternAt pageContent.data).filter
            (fun m => m.2 == name),
          (runScan (matchUseCallAt isAlnumChar) pageContent.data).filter
            (fun m => m.2 == name) with
        | [], [] => none
        | [], d :: ds =>
          some ⟨name, t, 1 + ds.length, usageContext pageContent.data d.1 30⟩
        | m :: ms, ds =>
          some ⟨name, t, 1 + ms.length + ds.length,
            keepLongerFold (usageContext pageContent.data m.1 40)
              (ms.map fun m' => usageContext pageContent.data m'.1 40)⟩
      else
        match (runScan matchJsxAt pageContent.data).filter
            (fun m => m.2 == name) with
        | [] => none
        | m :: ms =>
          some ⟨name, t, 1 + ms.length,
            keepLongerFold (usageContext pageContent.data m.1 50)
              (ms.map fun m' => usageContext pageContent.data m'.1 50)⟩ := by
  by_cases hempty : pageContent = ""
  · subst hempty
    by_cases huse : strStartsWith name "use" = true
    · rw [if_pos huse,
        show runScan matchHookDeclPatternAt ("" : String).data = [] from rfl,
        show runScan (matchUseCallAt isAlnumChar) ("" : String).data = [] from rfl]
      rfl
    · rw [if_neg huse,
        show runScan matchJsxAt ("" : String).data = [] from rfl]
      rfl
  · unfold extractUsedComponents
    rw [if_neg hempty]
    have h1 := processMatches_count_pos comps pageContent.data 50 true
      (runScan matchJsxAt pageContent.data) [] (by simp)
    have h2 := processMatches_count_pos comps pageContent.data 40 true
      (runScan matchHookDeclPatternAt pageContent.data) _ h1
    have h3 := processMatches_count_pos comps pageContent.data 30 false
      (runScan (matchUseCallAt isAlnumChar) pageContent.data) _ h2
    rw [List.filter_eq_self.mpr (fun e he => by
      simpa using h3 e he)]
    rw [processMatches_find comps pageContent.data 30 false name t hlook]
    rw [processMatches_find comps pageContent.data 40 true name t hlook]
    rw [processMatches_find comps pageContent.data 50 true name t hlook]
    by_cases huse : strStartsWith name "use" = true
    · rw [if_pos huse]
      have hjsxnil : (runScan matchJsxAt pageContent.data).filter
          (fun m => m.2 == name) = [] := by
        refine List.filter_eq_nil_iff.mpr (fun m hm => ?_)
        have hcap := runScan_capture matchJsxAt matchJsxAt_capture
          pageContent.data m hm
        intro hbeq
        rw [eq_of_beq hbeq] at hcap
        rw [hcap] at huse
        exact Bool.false_ne_true huse
      rw [hjsxnil, entryAfter_nil, List.find?_nil]
      rcases hh : (runScan matchHookDeclPatternAt pageContent.data).filter
          (fun m => m.2 == name) with _ | ⟨m, ms⟩ <;> rw [hh]
      · rw [entryAfter_nil]
        rcases hd : (runScan (matchUseCallAt isAlnumChar) pageContent.data).filter
            (fun m => m.2 == name) with _ | ⟨d, ds⟩ <;> rw [hd]
        · rfl
        · show entryAfter name t _ false
            (some ⟨name, t, 1, usageContext pageContent.data d.1 30⟩) ds = _
          rw [entryAfter_some_false]
      · show entryAfter name t _ false
          (entryAfter name t _ true
            (some ⟨name, t, 1, usageContext pageContent.data m.1 40⟩) ms) _ = _
        rw [entryAfter_some, entryAfter_some_false]
    · have huse2 : strStartsWith name "use" = false := by
        simpa using huse
      rw [if_neg huse]
      have hhooks : ∀ (matchAt : Option Char → List Char → Option (Nat × String)),
          (∀ prev l n cap, matchAt prev l = some (n, cap) →
            strStartsWith cap "use" = true) →
          ∀ m ∈ runScan matchAt pageContent.data, (m.2 == name) = false := by
        intro matchAt hmat m hm
        have hcap := runScan_capture matchAt hmat pageContent.data m hm
        by_contra hbeq
        simp only [Bool.not_eq_false] at hbeq
        rw [eq_of_beq hbeq] at hcap
        rw [hcap] at huse2
        exact absurd huse2 (by simp)
      have hdirectnil : (runScan (matchUseCallAt isAlnumChar) pageContent.data).filter
          (fun m => m.2 == name) = [] :=
        List.filter_eq_nil_iff.mpr (fun m hm => by
          simp [hhooks (matchUseCallAt isAlnumChar)
            (fun prev l n cap => matchUseCallAt_capture isAlnumChar prev l n cap) m hm])
      have hhooknil : (runScan matchHookDeclPatternAt pageContent.data).filter
          (fun m => m.2 == name) = [] :=
        List.filter_eq_nil_iff.mpr (fun m hm => by
          simp [hhooks matchHookDeclPatternAt matchHookDeclPatternAt_capture m hm])
      rw [hdirectnil]
      rw [entryAfter_nil]
      rw [hhooknil]
      rw [entryAfter_nil]
      rcases hjsx : (runScan matchJsxAt pageContent.data).filter
          (fun m => m.2 == name) with _ | ⟨m, ms⟩ <;> rw [hjsx]
      · rfl
      · show entryAfter name t _ true
          (some ⟨name, t, 1, usageContext pageContent.data m.1 50⟩) ms = _
        rw [entryAfter_some]

/-- C6 counterexample: `demoPageTwice` matches `<Button` at indices 0 and 62;
the recorded snippet is the context of the *second* occurrence (the first
occurrence's window is clipped at the page start and is shorter), not the
context of the first matched occurrence. -/
theorem first_usage_snippet_counterexample :
    (runScan matchJsxAt demoPageTwice.data).map Prod.fst = [0, 62] ∧
    ((extractUsedComponents demoPageTwice demoComps).find?
        (fun u => u.name == "Button")).map (fun u => u.firstUsage) =
      some (usageContext demoPageTwice.data 62 50) ∧
    usageContext demoPageTwice.data 62 50 ≠ usageContext demoPageTwice.data 0 50 := by
  refine ⟨by decide, by decide, by decide⟩

/-- C6 witness: the characterization exercised on a component entry whose
snippet comes from the *second* occurrence (`Button` on `demoPageTwice`), a
hook entry matched by both hook passes (`useForm` on `demoPageDeclCall`),
and a hook entry created by the `directHookPattern` pass alone (`useForm` on
`demoPageBareCall`, where the `hookPattern` scan finds nothing). -/
theorem first_usage_snippet_spec_witness :
    ((extractUsedComponents demoPageTwice demoComps).find?
        (fun u => u.name == "Button") =
      match (runScan matchJsxAt demoPageTwice.data).filter
          (fun m => m.2 == "Button") with
      | [] => none
      | m :: ms =>
        some ⟨"Button", Category.component, 1 + ms.length,
          keepLongerFold (usageContext demoPageTwice.data m.1 50)
            (ms.map fun m' => usageContext demoPageTwice.data m'.1 50)⟩) ∧
    ((extractUsedComponents demoPageDeclCall demoComps).find?
        (fun u => u.name == "useForm") =
      match
        (runScan matchHookDeclPatternAt demoPageDeclCall.data).filter
          (fun m => m.2 == "useForm"),
        (runScan (matchUseCallAt isAlnumChar) demoPageDeclCall.data).filter
          (fun m => m.2 == "useForm") with
      | [], [] => none
      | [], d :: ds =>
        some ⟨"useForm", Category.hook, 1 + ds.length,
          usageContext demoPageDeclCall.data d.1 30⟩
      | m :: ms, ds =>
        some ⟨"useForm", Category.hook, 1 + ms.length + ds.length,
          keepLongerFold (usageContext demoPageDeclCall.data m.1 40)
            (ms.map fun m' => usageContext demoPageDeclCall.data m'.1 40)⟩) ∧
    (runScan matchHookDeclPatternAt demoPageBareCall.data).filter
        (fun m => m.2 == "useForm") = [] ∧
    ((extractUsedComponents demoPageBareCall demoComps).find?
        (fun u => u.name == "useForm") =
      match
        (runScan matchHookDeclPatternAt demoPageBareCall.data).filter
          (fun m => m.2 == "useForm"),
        (runScan (matchUseCallAt isAlnumChar) demoPageBareCall.data).filter
          (fun m => m.2 == "useForm") with
      | [], [] => none
      | [], d :: ds =>
        some ⟨"useForm", Category.hook, 1 + ds.length,
          usageContext demoPageBareCall.data d.1 30⟩
      | m :: ms, ds =>
        some ⟨"useForm", Category.hook, 1 + ms.length + ds.length,
          keepLongerFold (usageContext demoPageBareCall.data m.1 40)
            (ms.map fun m' => usageContext demoPageBareCall.data m'.1 40)⟩) :=
  ⟨first_usage_snippet_spec demoPageTwice demoComps "Button" Category.component
     (by decide),
   first_usage_snippet_spec demoPageDeclCall demoComps "useForm" Category.hook
     (by decide),
   by decide,
   first_usage_snippet_spec demoPageBareCall demoComps "useForm" Category.hook
     (by decide)⟩

/-! ## C7 and C10 — record shapes produced by `scanComponents` -/

/-- A fold of `insertUniq` keeps the accumulator duplicate-free. -/
theorem foldl_insertUniq_nodup (l : List String) (acc : List String)
    (h : acc.Nodup) : (l.foldl insertUniq acc).Nodup := by
  induction l generalizing acc with
  | nil => exact h
  | cons a t ih =>
    apply ih
    unfold insertUniq
    by_cases ha : a ∈ acc
    · rw [if_pos ha]; exact h
    · rw [if_neg ha]
      simp [List.nodup_append, h, ha]

/-- The dedup-then-cap tail returns at most 3 pairwise distinct snippets. -/
theorem dedupAndCapExamples_ok (l : List String) :
    (dedupAndCapExamples l).length ≤ 3 ∧ (dedupAndCapExamples l).Nodup := by
  unfold dedupAndCapExamples
  refine ⟨List.length_take_le _ _, ?_⟩
  exact (foldl_insertUniq_nodup l [] List.nodup_nil).sublist (List.take_sublist _ _)

/-- Elements after the in-place hook enhancement come from the original
list, possibly with only `hookUsages` replaced. -/
theorem mem_replaceFirstHookDoc (h : String) (hd : Doc) :
    ∀ (docs : List Doc) (d : Doc), d ∈ replaceFirstHookDoc h hd docs →
      d ∈ docs ∨ ∃ d₀ ∈ docs, d = { d₀ with hookUsages := hd.hookUsages } := by
  intro docs
  induction docs with
  | nil => intro d hdm; simp [replaceFirstHookDoc] at hdm
  | cons a t ih =>
    intro d hdm
    unfold replaceFirstHookDoc at hdm
    split at hdm
    · rcases List.mem_cons.mp hdm with h' | h'
      · exact Or.inr ⟨a, List.mem_cons_self _ _, h'⟩
      · exact Or.inl (List.mem_cons_of_mem _ h')
    · rcases List.mem_cons.mp hdm with h' | h'
      · exact Or.inl (h' ▸ List.mem_cons_self _ _)
      · rcases ih d h' with h'' | ⟨d₀, hd₀, he⟩
        · exact Or.inl (List.mem_cons_of_mem _ h'')
        · exact Or.inr ⟨d₀, List.mem_cons_of_mem _ hd₀, he⟩

/-- The shape invariant every record of the scan satisfies: its category is
one of the four producible ones and its usage-example list is either empty
or a dedup-and-cap result. -/
def DocShape (d : Doc) : Prop :=
  (d.type = Category.component ∨ d.type = Category.hook ∨
   d.type = Category.page ∨ d.type = Category.mdx) ∧
  (d.realUsageExamples = [] ∨
   ∃ raw, d.realUsageExamples = dedupAndCapExamples raw)

/-- Whatever the classifier decided, the pushed script record has the
shape. -/
theorem mkScanDoc_shape (env : ScanEnv) (name filePath : String)
    (docType : CoreType) : DocShape (mkScanDoc env name filePath docType) := by
  cases docType
  · exact ⟨Or.inl rfl, Or.inr ⟨_, rfl⟩⟩
  · exact ⟨Or.inr (Or.inl rfl), Or.inr ⟨_, rfl⟩⟩
  · exact ⟨Or.inr (Or.inr (Or.inl rfl)), Or.inl rfl⟩

/-- Every first-pass record has the shape. -/
theorem mem_docsForFile_shape (env : ScanEnv) (cenv : ClassifyEnv)
    (cfg : OverridesConfig) (f : SourceFile) :
    ∀ d ∈ docsForFile env cenv cfg f, DocShape d := by
  intro d hd
  unfold docsForFile at hd
  split at hd
  · -- mdx branch
    rcases List.mem_singleton.mp hd with rfl
    exact ⟨Or.inr (Or.inr (Or.inr rfl)), Or.inl rfl⟩
  · split at hd
    · -- ts branch
      obtain ⟨name, -, rfl⟩ := List.mem_map.mp hd
      exact mkScanDoc_shape env name f.path _
    · split at hd
      · -- js branch
        split at hd
        · simp at hd
        · split at hd
          · simp at hd
          · split at hd
            · simp at hd
            · obtain ⟨c?, -, rfl⟩ := List.mem_map.mp hd
              exact mkScanDoc_shape env _ f.path _
      · simp at hd

/-- Every second-pass record has the shape (all its branches build
`type := hook`). -/
theorem scanSpecificHook_shape (env : ScanEnv) (files : List SourceFile)
    (hookName : String) (usages : List CallSite) (d : Doc)
    (h : scanSpecificHook env files hookName usages = some d) : DocShape d := by
  unfold scanSpecificHook at h
  split at h <;> simp only at h
  · -- a file with a matching definition regex was found
    split at h
    · rcases Option.some.inj h with rfl
      exact ⟨Or.inr (Or.inl rfl), Or.inl rfl⟩
    · rcases Option.some.inj h with rfl
      exact ⟨Or.inr (Or.inl rfl), Or.inr ⟨_, rfl⟩⟩
  · -- no defining file
    split at h
    · rcases Option.some.inj h with rfl
      exact ⟨Or.inr (Or.inl rfl), Or.inl rfl⟩
    · split at h
      · rcases Option.some.inj h with rfl
        exact ⟨Or.inr (Or.inl rfl), Or.inl rfl⟩
      · exact absurd h (by simp)

/-- Every record `scanComponents` returns has the shape. -/
theorem scanComponents_shape (env : ScanEnv) (cenv : ClassifyEnv)
    (cfg : OverridesConfig) (files : List SourceFile) :
    ∀ d ∈ scanComponents env cenv cfg files, DocShape d := by
  unfold scanComponents
  refine foldl_preserves DocShape _ ?_ (findAllHookNames files) _ ?_
  · intro acc hookName hacc d hd
    rcases hscan : scanSpecificHook env files hookName (hookUsagesFor files hookName)
        with _ | hnew
    · rw [hscan] at hd
      exact hacc d hd
    · rw [hscan] at hd
      simp only at hd
      split at hd
      · rcases mem_replaceFirstHookDoc hookName hnew acc d hd with h' | ⟨d₀, hd₀, rfl⟩
        · exact hacc d h'
        · exact hacc d₀ hd₀
      · rcases List.mem_append.mp hd with h' | h'
        · exact hacc d h'
        · rcases List.mem_singleton.mp h' with rfl
          exact scanSpecificHook_shape env files hookName _ _ hscan
  · intro d hd
    obtain ⟨f, -, hdf⟩ := List.mem_flatMap.mp hd
    exact mem_docsForFile_shape env cenv cfg f d hdf

/-- C10: every record the scan produces has category `component`, `hook`,
`page` or `mdx` — the declared categories `api`, `service`, `util` are never
produced. -/
theorem scan_categories (env : ScanEnv) (cenv : ClassifyEnv)
    (cfg : OverridesConfig) (files : List SourceFile) :
    ∀ d ∈ scanComponents env cenv cfg files,
      d.type = Category.component ∨ d.type = Category.hook ∨
      d.type = Category.page ∨ d.type = Category.mdx :=
  fun d hd => (scanComponents_shape env cenv cfg files d hd).1

/-- C10 witness: the one-markdown-file snapshot yields its `mdx` record,
which the theorem places in the four-value set. -/
theorem scan_categories_witness :
    (scanComponents demoScanEnv demoEnvRouteTrue emptyOverridesConfig
        [demoMdxFile]).map (fun d => d.type) = [Category.mdx] ∧
    ∀ d ∈ scanComponents demoScanEnv demoEnvRouteTrue emptyOverridesConfig
        [demoMdxFile],
      d.type = Category.component ∨ d.type = Category.hook ∨
      d.type = Category.page ∨ d.type = Category.mdx :=
  ⟨by decide,
   scan_categories demoScanEnv demoEnvRouteTrue emptyOverridesConfig [demoMdxFile]⟩

/-- C7: every record's usage-example list holds at most 3 snippets, pairwise
distinct as strings. -/
theorem usage_examples_capped (env : ScanEnv) (cenv : ClassifyEnv)
    (cfg : OverridesConfig) (files : List SourceFile) :
    ∀ d ∈ scanComponents env cenv cfg files,
      d.realUsageExamples.length ≤ 3 ∧ d.realUsageExamples.Nodup := by
  intro d hd
  rcases (scanComponents_shape env cenv cfg files d hd).2 with he | ⟨raw, he⟩
  · rw [he]; exact ⟨by simp, List.nodup_nil⟩
  · rw [he]; exact dedupAndCapExamples_ok raw

/-- C7 witness: the one-file snapshot produces exactly one record (with an
empty example list), and the theorem bounds its examples. -/
theorem usage_examples_capped_witness :
    (scanComponents demoScanEnv demoEnvRouteTrue emptyOverridesConfig
        [demoMdxFile]).map (fun d => d.realUsageExamples) = [[]] ∧
    ∀ d ∈ scanComponents demoScanEnv demoEnvRouteTrue emptyOverridesConfig
        [demoMdxFile],
      d.realUsageExamples.length ≤ 3 ∧ d.realUsageExamples.Nodup :=
  ⟨by decide,
   usage_examples_capped demoScanEnv demoEnvRouteTrue emptyOverridesConfig
     [demoMdxFile]⟩

/-! ## C9 — missing or malformed override file -/

/-- C9: a missing sidecar file (read fails) or a malformed one (parse fails)
makes `loadOverrides` return the empty override configuration; being a total
function, it raises nothing. -/
theorem loadOverrides_degrades (parse : String → Option OverridesConfig)
    (s : String) (hbad : parse s = none) :
    loadOverrides none parse = emptyOverridesConfig ∧
    loadOverrides (some s) parse = emptyOverridesConfig := by
  exact ⟨rfl, by simp [loadOverrides, hbad]⟩

/-- C9 witness: a parser that rejects the malformed text `"not json ]["`. -/
theorem loadOverrides_degrades_witness :
    loadOverrides none (fun _ => none) = emptyOverridesConfig ∧
    loadOverrides (some "not json ][") (fun _ => none) = emptyOverridesConfig :=
  loadOverrides_degrades (fun _ => none) "not json ][" rfl

end SmartDocs
